import Mathlib

/-!
A verification development for the libottery generator engine, as described
by `src/ottery-internal.h` and the accompanying natural-language design
document.  Only the internal header is available as source; the engine,
entropy-aggregation and PRF-selection routines are declared there but their
bodies live elsewhere, so those operations are modelled from the design
document (each such definition carries a doc comment beginning
`Modelled from the spec:`).  Bytes are modelled as natural numbers and byte
regions as lists.
-/

namespace Ottery

/-- Largest possible state_bytes value (`MAX_STATE_BYTES` in the header). -/
def MAX_STATE_BYTES : Nat := 64

/-- Largest possible state_len value (`MAX_STATE_LEN` in the header). -/
def MAX_STATE_LEN : Nat := 256

/-- Largest possible output_len value (`MAX_OUTPUT_LEN` in the header). -/
def MAX_OUTPUT_LEN : Nat := 1024

/-- An RNG that probably provides strong entropy. -/
def OTTERY_ENTROPY_FL_STRONG : Nat := 0x000001

/-- An RNG that runs very quickly. -/
def OTTERY_ENTROPY_FL_FAST : Nat := 0x000002

/-- An RNG provided by the operating system. -/
def OTTERY_ENTROPY_DOM_OS : Nat := 0x000100

/-- An RNG provided by the CPU. -/
def OTTERY_ENTROPY_DOM_CPU : Nat := 0x000200

/-- An EGD-style entropy source. -/
def OTTERY_ENTROPY_DOM_EGD : Nat := 0x000400

/-- Mask covering the entropy-domain bits. -/
def OTTERY_ENTROPY_DOM_MASK : Nat := 0x00ff00

/-- A unix-style /dev/urandom device. -/
def OTTERY_ENTROPY_SRC_RANDOMDEV : Nat := 0x0010000

/-- The Windows CryptGenRandom call. -/
def OTTERY_ENTROPY_SRC_CRYPTGENRANDOM : Nat := 0x0020000

/-- The Intel RDRAND instruction. -/
def OTTERY_ENTROPY_SRC_RDRAND : Nat := 0x0040000

/-- An EGD entropy source. -/
def OTTERY_ENTROPY_SRC_EGD : Nat := 0x0080000

/-- Mask covering all source-identity bits. -/
def OTTERY_ENTROPY_ALL_SOURCES : Nat := 0x0fff0000

/-- CPU capability bit: SIMD instructions available. -/
def OTTERY_CPUCAP_SIMD : Nat := 1

/-- CPU capability bit: SSSE3 instructions available. -/
def OTTERY_CPUCAP_SSSE3 : Nat := 2

/-- CPU capability bit: AES instructions available. -/
def OTTERY_CPUCAP_AES : Nat := 4

/-- CPU capability bit: RDRAND-style instruction available. -/
def OTTERY_CPUCAP_RAND : Nat := 8

/-- Modelled from the spec: `ottery_memclear_` (declared in the header, body
not in src).  Clears the first `len` bytes of the region `mem`, leaving the
region's length unchanged; the design document fixes the erase pattern as
zero. -/
def ottery_memclear_ (mem : List Nat) (len : Nat) : List Nat :=
  List.replicate (min len mem.length) 0 ++ mem.drop len

/-- Clearing a subregion of a buffer: bytes `[s, s+k)` of `buf` are erased in
place, as `ottery_memclear_(buf + s, k)` does in C. -/
def clear_region (buf : List Nat) (s k : Nat) : List Nat :=
  buf.take s ++ ottery_memclear_ (buf.drop s) k

/-- Configuration for the strong RNG used for entropy
(`struct ottery_osrng_config`). -/
structure ottery_osrng_config where
  urandom_fname : Option String
  egd_sockaddr : Option Nat
  disabled_sources : Nat
deriving DecidableEq

/-- One external entropy source as the aggregation layer sees it: its static
OTTERY_ENTROPY_* flag word and the outcome of querying it (`none` when the
source fails, `some bytes` when it yields `bytes`, possibly none at all). -/
structure entropy_source where
  flags : Nat
  outcome : Option (List Nat)
deriving DecidableEq

/-- Error results of entropy acquisition: the design document requires the
failure to distinguish "no eligible sources" from "all eligible sources
failed". -/
inductive entropy_err where
  | no_sources
  | all_failed
deriving DecidableEq

/-- Modelled from the spec: eligibility of one entropy source.  A source is
consulted when none of its flag bits is in the configuration's
`disabled_sources` mask (the header: "Don't use any sources with *any* of
these flags set") and its flags contain every bit of `require_flags`
(when `require_flags = 0` this second condition is vacuous, matching "use all
the sources that work"). -/
def eligible (cfg : ottery_osrng_config) (require_flags : Nat)
    (s : entropy_source) : Bool :=
  s.flags &&& cfg.disabled_sources == 0 &&
  s.flags &&& require_flags == require_flags

/-- Modelled from the spec: the aggregation loop of `ottery_get_entropy_`.
Queries each source in turn, appends whatever bytes it yields, and ORs the
flags of every contributing source; a failed or zero-byte source is
skipped. -/
def gather (srcs : List entropy_source) : List Nat × Nat :=
  match srcs with
  | [] => ([], 0)
  | s :: rest =>
    let acc := gather rest
    match s.outcome with
    | none => acc
    | some b => if b = [] then acc else (b ++ acc.1, s.flags ||| acc.2)

/-- Modelled from the spec: `ottery_get_entropy_` (declared in the header,
body not in src).  Filters the platform's source list down to the eligible
sources, aggregates their bytes and flags, and fails exactly when no eligible
source contributed any bytes, distinguishing "no eligible sources" from "all
eligible sources failed". -/
def ottery_get_entropy_ (cfg : ottery_osrng_config) (require_flags : Nat)
    (srcs : List entropy_source) : Except entropy_err (List Nat × Nat) :=
  let elig := srcs.filter (eligible cfg require_flags)
  if elig = [] then .error .no_sources
  else
    let r := gather elig
    if r.1 = [] then .error .all_failed else .ok r

/-- A PRF descriptor (`struct ottery_prf`).  The concrete permutation
arithmetic of each algorithm is out of the design document's scope, so
`setup` and `generate` are carried as abstract functions on byte lists; the
`stir_after` threshold field is taken from the header's comment on
`block_counter` ("When this equals or exceeds prf.stir_after, we should stir
the PRNG"), although the C struct as written omits it. -/
structure ottery_prf where
  name : String
  impl : String
  flav : String
  state_len : Nat
  state_bytes : Nat
  output_len : Nat
  required_cpucap : Nat
  stir_after : Nat
  setup : List Nat → List Nat
  generate : List Nat → Nat → List Nat

/-- The bounds the header documents for every PRF descriptor:
`state_len ≤ MAX_STATE_LEN`, `state_bytes ≤ MAX_STATE_BYTES`,
`state_bytes ≤ output_len`, `output_len ≤ MAX_OUTPUT_LEN`. -/
def prf_bounds_ok (p : ottery_prf) : Prop :=
  p.state_len ≤ MAX_STATE_LEN ∧ p.state_bytes ≤ MAX_STATE_BYTES ∧
  p.state_bytes ≤ p.output_len ∧ p.output_len ≤ MAX_OUTPUT_LEN

instance (p : ottery_prf) : Decidable (prf_bounds_ok p) := by
  unfold prf_bounds_ok; infer_instance

/-- Modelled from the spec: the pure-C portable merged ChaCha20 descriptor
(`ottery_prf_chacha20_merged_`, declared in the header with its definition
elsewhere).  The numeric parameters respect every documented bound and the
descriptor requires no CPU capability; the permutation itself is out of
scope and stands in as an abstract placeholder. -/
def ottery_prf_chacha20_merged_ : ottery_prf :=
  { name := "CHACHA20", impl := "MERGED", flav := "CHACHA20-MERGED",
    state_len := 48, state_bytes := 40, output_len := 64,
    required_cpucap := 0, stir_after := 16384,
    setup := fun b => b.take 40,
    generate := fun s c => List.replicate 64 ((s.foldl (· + ·) 0 + c) % 256) }

/-- Modelled from the spec: the pure-C portable merged ChaCha12 descriptor. -/
def ottery_prf_chacha12_merged_ : ottery_prf :=
  { ottery_prf_chacha20_merged_ with
    name := "CHACHA12", flav := "CHACHA12-MERGED" }

/-- Modelled from the spec: the pure-C portable merged ChaCha8 descriptor. -/
def ottery_prf_chacha8_merged_ : ottery_prf :=
  { ottery_prf_chacha20_merged_ with
    name := "CHACHA8", flav := "CHACHA8-MERGED" }

/-- Modelled from the spec: a SIMD ChaCha20 descriptor
(`ottery_prf_chacha20_krovetz_1_`), requiring the SIMD CPU capability. -/
def ottery_prf_chacha20_krovetz_1_ : ottery_prf :=
  { ottery_prf_chacha20_merged_ with
    impl := "KROVETZ-1", flav := "CHACHA20-KROVETZ-1",
    state_len := 128, output_len := 256,
    required_cpucap := OTTERY_CPUCAP_SIMD }

/-- Modelled from the spec: the fixed PRF registry, ordered from most to
least specialized so that a scan taking the first eligible descriptor
implements the documented preference ranking; the all-software merged
ChaCha20 descriptor is the guaranteed fallback. -/
def prf_registry : List ottery_prf :=
  [ottery_prf_chacha20_krovetz_1_, ottery_prf_chacha20_merged_,
   ottery_prf_chacha12_merged_, ottery_prf_chacha8_merged_]

/-- Modelled from the spec: `select_prf` without an override.  Scans the
fixed registry and returns the first descriptor whose `required_cpucap`
bits are all present in `cpucap`. -/
def select_prf (cpucap : Nat) : Option ottery_prf :=
  prf_registry.find? (fun p => p.required_cpucap &&& cpucap == p.required_cpucap)

/-- Modelled from the spec: `select_prf` with the optional explicit override,
which is used verbatim when supplied. -/
def select_prf_with_override (override : Option ottery_prf) (cpucap : Nat) :
    Option ottery_prf :=
  match override with
  | some p => some p
  | none => select_prf cpucap

/-- Modelled from the spec: the live sentinel stored in `ottery_state.magic`
once initialization has completed (its concrete value lives in the engine
source, which is not in src; any fixed value serves the model). -/
def OTTERY_MAGIC : Nat := 0x6f747472

/-- The generator state (`struct ottery_state`), with the byte regions
`buffer` and `state` as lists.  The lock is a concurrency artifact outside a
sequential shallow embedding and is omitted; every engine operation below
runs as one atomic step, which is exactly what holding the lock for the full
operation guarantees. -/
structure ottery_state where
  buffer : List Nat
  state : List Nat
  prf : ottery_prf
  block_counter : Nat
  magic : Nat
  pos : Nat
  pid : Nat
  entropy_src_flags : Nat
  last_osrng_flags : Nat
  osrng_config : ottery_osrng_config

/-- An engine configuration: the generator state plus a count of entropy
fetches performed so far.  The count indexes an entropy stream
`ent : Nat → List Nat × Nat` giving the bytes and achieved flags of each
successive call into the entropy layer. -/
structure engine where
  st : ottery_state
  nfetch : Nat

/-- Events an engine operation can perform, for stating temporal properties:
a full seed, a stir, or a call to `prf.generate` with the counter value
passed to it. -/
inductive event where
  | seed
  | stir
  | gen (counter : Nat)
deriving DecidableEq

/-- The sequence of counter values passed to `prf.generate` along a trace. -/
def ctrace (t : List event) : List Nat :=
  t.filterMap (fun ev => match ev with | .gen c => some c | _ => none)

/-- The fresh entropy bytes a seed or stir of `e` consumes: the next fetch
from the entropy stream, sized for `prf.state_bytes`. -/
def seed_bytes_of (ent : Nat → List Nat × Nat) (e : engine) : List Nat :=
  (ent e.nfetch).1.take e.st.prf.state_bytes

/-- The seed scratch region as it reads back immediately after a seed or
stir: the design document requires the seed bytes to be erased right after
`prf.setup` consumes them. -/
def seed_scratch_after (ent : Nat → List Nat × Nat) (e : engine) : List Nat :=
  ottery_memclear_ (seed_bytes_of ent e) (seed_bytes_of ent e).length

/-- Modelled from the spec: the full-seed step of the engine (§4.4 step 1 of
the design document; the engine source is not in src).  Fetches fresh
entropy sized for `prf.state_bytes`, runs `prf.setup` on it, resets
`block_counter`, forces regeneration by setting `pos = prf.output_len`, sets
the magic sentinel and the current pid, and records the achieved entropy
flags. -/
def full_seed (ent : Nat → List Nat × Nat) (cur_pid : Nat) (e : engine) :
    engine :=
  { st := { e.st with
      state := e.st.prf.setup (seed_bytes_of ent e),
      block_counter := 0,
      pos := e.st.prf.output_len,
      magic := OTTERY_MAGIC,
      pid := cur_pid,
      entropy_src_flags := e.st.entropy_src_flags ||| (ent e.nfetch).2,
      last_osrng_flags := (ent e.nfetch).2 },
    nfetch := e.nfetch + 1 }

/-- Modelled from the spec: the stir step (§4.4 step 2).  Fetches fresh
entropy sized for `prf.state_bytes`, mixes it in by re-running `prf.setup`
on the freshly drawn bytes, and resets `block_counter` to zero; `pos`,
`magic` and `pid` are untouched. -/
def stir (ent : Nat → List Nat × Nat) (e : engine) : engine :=
  { st := { e.st with
      state := e.st.prf.setup (seed_bytes_of ent e),
      block_counter := 0,
      entropy_src_flags := e.st.entropy_src_flags ||| (ent e.nfetch).2,
      last_osrng_flags := (ent e.nfetch).2 },
    nfetch := e.nfetch + 1 }

/-- Modelled from the spec: regeneration of the output buffer (§4.4 step 3).
Calls `prf.generate(state, buffer, block_counter)`, increments
`block_counter`, and rewinds `pos` to zero. -/
def nextblock (e : engine) : engine :=
  { e with st := { e.st with
      buffer := e.st.prf.generate e.st.state e.st.block_counter,
      block_counter := e.st.block_counter + 1,
      pos := 0 } }

/-- Modelled from the spec: step 1 of `ensure_ready`.  If the magic sentinel
or the recorded pid is wrong (uninitialized state, or a fork happened), a
full seed is performed. -/
def check_seed (ent : Nat → List Nat × Nat) (cur_pid : Nat) (e : engine) :
    engine × List event :=
  if e.st.magic = OTTERY_MAGIC ∧ e.st.pid = cur_pid then (e, [])
  else (full_seed ent cur_pid e, [.seed])

/-- Modelled from the spec: step 2 of `ensure_ready`.  When `block_counter`
equals or exceeds the per-PRF `stir_after` threshold (the comparison the
header documents on `block_counter`), a stir is performed. -/
def check_stir (ent : Nat → List Nat × Nat) (e : engine) :
    engine × List event :=
  if e.st.prf.stir_after ≤ e.st.block_counter then (stir ent e, [.stir])
  else (e, [])

/-- Modelled from the spec: step 3 of `ensure_ready`.  When the buffer is
exhausted (`pos == prf.output_len`), a fresh block is generated. -/
def check_gen (e : engine) : engine × List event :=
  if e.st.pos = e.st.prf.output_len then (nextblock e, [.gen e.st.block_counter])
  else (e, [])

/-- Modelled from the spec: `ensure_ready` (§4.4), invoked at the start of
every byte-producing request: seed if stale, stir if the counter reached the
threshold, regenerate if the buffer is exhausted. -/
def ensure_ready (ent : Nat → List Nat × Nat) (cur_pid : Nat) (e : engine) :
    engine × List event :=
  let p1 := check_seed ent cur_pid e
  let p2 := check_stir ent p1.1
  let p3 := check_gen p2.1
  (p3.1, p1.2 ++ p2.2 ++ p3.2)

/-- The seed/stir portion of `ensure_ready` on its own, used by the
direct-to-destination generation path, which bypasses the shared buffer. -/
def seedstir (ent : Nat → List Nat × Nat) (cur_pid : Nat) (e : engine) :
    engine × List event :=
  let p1 := check_seed ent cur_pid e
  let p2 := check_stir ent p1.1
  (p2.1, p1.2 ++ p2.2)

/-- The number of unconsumed bytes left in the output buffer. -/
def avail (e : engine) : Nat := e.st.prf.output_len - e.st.pos

/-- The `k` bytes the current round copies out: `buffer[pos : pos+k]`. -/
def copied (e : engine) (k : Nat) : List Nat :=
  (e.st.buffer.drop e.st.pos).take k

/-- Consuming `k` buffered bytes: the copied region of the buffer is erased
and `pos` advances by `k`. -/
def consume (e : engine) (k : Nat) : engine :=
  { e with st := { e.st with
      buffer := clear_region e.st.buffer e.st.pos k,
      pos := e.st.pos + k } }

/-- Incrementing the block counter alone, as the direct-to-destination
generation path does (the shared buffer and `pos` stay untouched). -/
def bump (e : engine) : engine :=
  { e with st := { e.st with block_counter := e.st.block_counter + 1 } }

/-- Modelled from the spec: `extract(n)` (§4.4), the byte-by-byte buffered
path.  Each round runs `ensure_ready`, copies
`min(n, output_len - pos)` bytes out of `buffer[pos:]`, erases the copied
region, advances `pos`, and loops until `n` bytes have been produced.
Returns the produced bytes, the final engine, and the event trace. -/
def extract (ent : Nat → List Nat × Nat) (cur_pid : Nat) :
    Nat → engine → List Nat × engine × List event
  | 0, e => ([], e, [])
  | n+1, e =>
    if h : min (n+1) (avail (ensure_ready ent cur_pid e).1) = 0 then
      ([], (ensure_ready ent cur_pid e).1, (ensure_ready ent cur_pid e).2)
    else
      (copied (ensure_ready ent cur_pid e).1
          (min (n+1) (avail (ensure_ready ent cur_pid e).1)) ++
        (extract ent cur_pid (n+1 - min (n+1) (avail (ensure_ready ent cur_pid e).1))
          (consume (ensure_ready ent cur_pid e).1
            (min (n+1) (avail (ensure_ready ent cur_pid e).1)))).1,
       (extract ent cur_pid (n+1 - min (n+1) (avail (ensure_ready ent cur_pid e).1))
          (consume (ensure_ready ent cur_pid e).1
            (min (n+1) (avail (ensure_ready ent cur_pid e).1)))).2.1,
       (ensure_ready ent cur_pid e).2 ++
        (extract ent cur_pid (n+1 - min (n+1) (avail (ensure_ready ent cur_pid e).1))
          (consume (ensure_ready ent cur_pid e).1
            (min (n+1) (avail (ensure_ready ent cur_pid e).1)))).2.2)
  termination_by n e => n
  decreasing_by all_goals omega

/-- Modelled from the spec: the optimized request path (§4.4).  When at
least `output_len` bytes remain to produce and the shared buffer is
exhausted, a block is generated directly into the caller's destination and
the shared buffer is left untouched; otherwise it behaves as the buffered
path. -/
def extract_direct (ent : Nat → List Nat × Nat) (cur_pid : Nat) :
    Nat → engine → List Nat × engine × List event
  | 0, e => ([], e, [])
  | n+1, e =>
    if hd : (seedstir ent cur_pid e).1.st.prf.output_len ≤ n+1 ∧
        (seedstir ent cur_pid e).1.st.pos =
          (seedstir ent cur_pid e).1.st.prf.output_len ∧
        1 ≤ (seedstir ent cur_pid e).1.st.prf.output_len then
      ((seedstir ent cur_pid e).1.st.prf.generate
          (seedstir ent cur_pid e).1.st.state
          (seedstir ent cur_pid e).1.st.block_counter ++
        (extract_direct ent cur_pid
          (n+1 - (seedstir ent cur_pid e).1.st.prf.output_len)
          (bump (seedstir ent cur_pid e).1)).1,
       (extract_direct ent cur_pid
          (n+1 - (seedstir ent cur_pid e).1.st.prf.output_len)
          (bump (seedstir ent cur_pid e).1)).2.1,
       (seedstir ent cur_pid e).2 ++
         [.gen (seedstir ent cur_pid e).1.st.block_counter] ++
        (extract_direct ent cur_pid
          (n+1 - (seedstir ent cur_pid e).1.st.prf.output_len)
          (bump (seedstir ent cur_pid e).1)).2.2)
    else
      if h : min (n+1) (avail (check_gen (seedstir ent cur_pid e).1).1) = 0 then
        ([], (check_gen (seedstir ent cur_pid e).1).1,
         (seedstir ent cur_pid e).2 ++ (check_gen (seedstir ent cur_pid e).1).2)
      else
        (copied (check_gen (seedstir ent cur_pid e).1).1
            (min (n+1) (avail (check_gen (seedstir ent cur_pid e).1).1)) ++
          (extract_direct ent cur_pid
            (n+1 - min (n+1) (avail (check_gen (seedstir ent cur_pid e).1).1))
            (consume (check_gen (seedstir ent cur_pid e).1).1
              (min (n+1) (avail (check_gen (seedstir ent cur_pid e).1).1)))).1,
         (extract_direct ent cur_pid
            (n+1 - min (n+1) (avail (check_gen (seedstir ent cur_pid e).1).1))
            (consume (check_gen (seedstir ent cur_pid e).1).1
              (min (n+1) (avail (check_gen (seedstir ent cur_pid e).1).1)))).2.1,
         (seedstir ent cur_pid e).2 ++
           (check_gen (seedstir ent cur_pid e).1).2 ++
          (extract_direct ent cur_pid
            (n+1 - min (n+1) (avail (check_gen (seedstir ent cur_pid e).1).1))
            (consume (check_gen (seedstir ent cur_pid e).1).1
              (min (n+1) (avail (check_gen (seedstir ent cur_pid e).1).1)))).2.2)
  termination_by n e => n
  decreasing_by all_goals omega

/-- `m` successive one-byte `extract` calls on the same instance, returning
the final engine and the concatenated event trace. -/
def extract1s (ent : Nat → List Nat × Nat) (cur_pid : Nat) :
    Nat → engine → engine × List event
  | 0, e => (e, [])
  | m+1, e =>
    let r := extract ent cur_pid 1 e
    let r2 := extract1s ent cur_pid m r.2.1
    (r2.1, r.2.2 ++ r2.2)

/-- A valid, in-service engine for process `cur_pid`: the magic sentinel is
set, the state was seeded in this process, `pos` is in range, and the PRF's
output length and stir threshold are positive. -/
def engine_ok (cur_pid : Nat) (e : engine) : Prop :=
  e.st.magic = OTTERY_MAGIC ∧ e.st.pid = cur_pid ∧
  e.st.pos ≤ e.st.prf.output_len ∧ 1 ≤ e.st.prf.output_len ∧
  1 ≤ e.st.prf.stir_after

/-- Byte-level sanity of an engine: the buffer is exactly `output_len` bytes
and `prf.generate` always produces exactly `output_len` bytes. -/
def bytes_ok (e : engine) : Prop :=
  e.st.buffer.length = e.st.prf.output_len ∧
  ∀ s c, (e.st.prf.generate s c).length = e.st.prf.output_len

/-- The consumed region of the output buffer (everything before `pos`)
reads back as the erase pattern, zero. -/
def consumed_zero (e : engine) : Prop :=
  e.st.buffer.take e.st.pos = List.replicate e.st.pos 0

/-- The counter reduction the stir step induces: what `block_counter`
becomes once the stir check has run. -/
def creduce (T c : Nat) : Nat := if T ≤ c then 0 else c

/-- The position after the regeneration check of one round: rewound to zero
when the buffer was exhausted. -/
def cpos1 (len pos : Nat) : Nat := if pos = len then 0 else pos

/-- The counter values one round passes to the PRF: the reduced counter if
the round regenerates, nothing otherwise. -/
def ctr1 (T len pos c : Nat) : List Nat :=
  if pos = len then [creduce T c] else []

/-- The block counter after the stir and regeneration checks of one
round. -/
def cnext (T len pos c : Nat) : Nat :=
  if pos = len then creduce T c + 1 else creduce T c

/-- The counter-and-position simulation of the extraction loop: a pure
function of the stir threshold `T`, the block size `len`, the request size,
and the current `pos` and `block_counter`, returning the sequence of counter
values passed to the PRF together with the final `pos` and counter.  It
mirrors `extract` round for round. -/
def csim (T len : Nat) : Nat → Nat → Nat → List Nat × Nat × Nat
  | 0, pos, c => ([], pos, c)
  | n+1, pos, c =>
    if h : min (n+1) (len - cpos1 len pos) = 0 then
      (ctr1 T len pos c, cpos1 len pos, cnext T len pos c)
    else
      (ctr1 T len pos c ++
        (csim T len (n+1 - min (n+1) (len - cpos1 len pos))
          (cpos1 len pos + min (n+1) (len - cpos1 len pos))
          (cnext T len pos c)).1,
       (csim T len (n+1 - min (n+1) (len - cpos1 len pos))
          (cpos1 len pos + min (n+1) (len - cpos1 len pos))
          (cnext T len pos c)).2)
  termination_by n pos c => n
  decreasing_by all_goals omega

/-! ## Concrete material used by witnesses -/

/-- A small concrete PRF used to instantiate theorems with hypotheses. -/
def wPrf : ottery_prf :=
  { name := "W", impl := "W", flav := "W", state_len := 4, state_bytes := 2,
    output_len := 4, required_cpucap := 0, stir_after := 2,
    setup := fun b => b,
    generate := fun s c => List.replicate 4 ((s.headD 0 + c + 1) % 256) }

/-- A concrete entropy-source configuration for witnesses. -/
def wCfg : ottery_osrng_config :=
  { urandom_fname := none, egd_sockaddr := none,
    disabled_sources := OTTERY_ENTROPY_FL_FAST }

/-- A concrete fast OS entropy source for witnesses. -/
def wSrc : entropy_source :=
  { flags := OTTERY_ENTROPY_FL_FAST ||| OTTERY_ENTROPY_DOM_OS |||
      OTTERY_ENTROPY_SRC_RANDOMDEV,
    outcome := some [1, 2, 3] }

/-- A concrete seeded generator state for witnesses. -/
def wState : ottery_state :=
  { buffer := [0, 0, 9, 9], state := [5, 5], prf := wPrf, block_counter := 1,
    magic := OTTERY_MAGIC, pos := 2, pid := 7,
    entropy_src_flags := 0, last_osrng_flags := 0,
    osrng_config := { urandom_fname := none, egd_sockaddr := none,
                      disabled_sources := 0 } }

/-- A concrete engine for witnesses. -/
def wEngine : engine := { st := wState, nfetch := 0 }

/-- A concrete entropy stream for witnesses. -/
def wEnt : Nat → List Nat × Nat :=
  fun k => ([10 + k, 20 + k, 30 + k], OTTERY_ENTROPY_FL_STRONG)

/-! ## Helper lemmas -/

theorem ottery_memclear_length (mem : List Nat) (len : Nat) :
    (ottery_memclear_ mem len).length = mem.length := by
  simp [ottery_memclear_]
  omega

theorem ottery_memclear_take (mem : List Nat) (len : Nat) :
    (ottery_memclear_ mem len).take (min len mem.length) =
      List.replicate (min len mem.length) 0 := by
  unfold ottery_memclear_
  exact List.take_left' (by simp)

theorem ottery_memclear_getElem (mem : List Nat) (len i : Nat)
    (h1 : i < len) (h2 : i < mem.length) :
    (ottery_memclear_ mem len)[i]? = some 0 := by
  unfold ottery_memclear_
  rw [List.getElem?_append_left (by simp [List.length_replicate]; omega)]
  exact List.getElem?_replicate_of_lt (by simp; omega)

theorem clear_region_length (buf : List Nat) (s k : Nat) :
    (clear_region buf s k).length = buf.length := by
  simp [clear_region, ottery_memclear_]
  omega

theorem clear_region_take (buf : List Nat) (s k : Nat) (hs : s + k ≤ buf.length)
    (h : buf.take s = List.replicate s 0) :
    (clear_region buf s k).take (s + k) = List.replicate (s + k) 0 := by
  have hA : (buf.take s).length = s := by
    rw [h, List.length_replicate]
  have hmin : min k ((buf.drop s).length) = k := by
    rw [List.length_drop]; omega
  unfold clear_region ottery_memclear_
  rw [hmin, List.take_append_eq_append_take, hA,
      List.take_of_length_le (by rw [hA]; omega), Nat.add_sub_cancel_left, h,
      List.take_append_eq_append_take, List.take_replicate, Nat.min_self,
      List.length_replicate, Nat.sub_self, List.take_zero, List.append_nil,
      ← List.replicate_add]

theorem gather_eq_nil_iff (srcs : List entropy_source) :
    (gather srcs).1 = [] ↔
      ∀ s ∈ srcs, s.outcome = none ∨ s.outcome = some [] := by
  induction srcs with
  | nil => simp [gather]
  | cons s rest ih =>
    simp only [gather]
    cases ho : s.outcome with
    | none => simp [ho, ih]
    | some b =>
      by_cases hb : b = [] <;> simp [ho, hb, ih]

theorem gather_mem {srcs : List entropy_source} {b : Nat}
    (h : b ∈ (gather srcs).1) :
    ∃ s ∈ srcs, ∃ l, s.outcome = some l ∧ b ∈ l := by
  induction srcs with
  | nil => simp [gather] at h
  | cons s rest ih =>
    simp only [gather] at h
    cases ho : s.outcome with
    | none =>
      simp only [ho] at h
      obtain ⟨t, ht, l, hl, hb⟩ := ih h
      exact ⟨t, List.mem_cons_of_mem _ ht, l, hl, hb⟩
    | some c =>
      simp only [ho] at h
      by_cases hc : c = []
      · rw [if_pos hc] at h
        obtain ⟨t, ht, l, hl, hb⟩ := ih h
        exact ⟨t, List.mem_cons_of_mem _ ht, l, hl, hb⟩
      · rw [if_neg hc] at h
        rcases List.mem_append.mp h with hb | hb
        · exact ⟨s, List.mem_cons_self _ _, c, ho, hb⟩
        · obtain ⟨t, ht, l, hl, hb⟩ := ih hb
          exact ⟨t, List.mem_cons_of_mem _ ht, l, hl, hb⟩

/-! ## Claim theorems: PRF registry and selection -/

/-- C4: every PRF descriptor that `select_prf` can return comes from the
registry and satisfies `state_bytes ≤ output_len`,
`output_len ≤ MAX_OUTPUT_LEN` and `state_len ≤ MAX_STATE_LEN`. -/
theorem select_prf_bounds (cpucap : Nat) (p : ottery_prf)
    (h : select_prf cpucap = some p) :
    p ∈ prf_registry ∧ p.state_bytes ≤ p.output_len ∧
    p.output_len ≤ MAX_OUTPUT_LEN ∧ p.state_len ≤ MAX_STATE_LEN := by
  have hm : p ∈ prf_registry := List.mem_of_find?_eq_some h
  have hb : prf_bounds_ok p := by
    simp only [prf_registry, List.mem_cons, List.not_mem_nil, or_false] at hm
    rcases hm with rfl | rfl | rfl | rfl <;> decide
  exact ⟨hm, hb.2.2.1, hb.2.2.2, hb.1⟩

/-- C4 witness: selecting with no CPU capabilities yields the merged
ChaCha20 descriptor, which satisfies the bounds. -/
theorem select_prf_bounds_w :
    ottery_prf_chacha20_merged_ ∈ prf_registry ∧
    ottery_prf_chacha20_merged_.state_bytes ≤
      ottery_prf_chacha20_merged_.output_len ∧
    ottery_prf_chacha20_merged_.output_len ≤ MAX_OUTPUT_LEN ∧
    ottery_prf_chacha20_merged_.state_len ≤ MAX_STATE_LEN :=
  select_prf_bounds 0 ottery_prf_chacha20_merged_ rfl

/-- C8: the registry contains a pure-software descriptor with
`required_cpucap = 0`, so `select_prf` without an override succeeds for
every CPU capability mask, falling back to that descriptor. -/
theorem select_prf_total :
    (ottery_prf_chacha20_merged_ ∈ prf_registry ∧
     ottery_prf_chacha20_merged_.required_cpucap = 0) ∧
    (∀ cpucap : Nat, (select_prf cpucap).isSome) ∧
    select_prf 0 = some ottery_prf_chacha20_merged_ := by
  refine ⟨⟨?_, rfl⟩, ?_, rfl⟩
  · show ottery_prf_chacha20_merged_ ∈ _ :: _ :: _
    exact List.mem_cons_of_mem _ (List.mem_cons_self _ _)
  · intro cpucap
    rw [select_prf, List.find?_isSome]
    refine ⟨ottery_prf_chacha20_merged_, ?_, ?_⟩
    · show ottery_prf_chacha20_merged_ ∈ _ :: _ :: _
      exact List.mem_cons_of_mem _ (List.mem_cons_self _ _)
    · show (ottery_prf_chacha20_merged_.required_cpucap &&& cpucap ==
        ottery_prf_chacha20_merged_.required_cpucap) = true
      simp [ottery_prf_chacha20_merged_]

/-- C10: `state_bytes` is bounded by `MAX_STATE_BYTES = 64` for every
registry descriptor, a bound strictly below `MAX_STATE_LEN = 256`; and a
seed or stir consumes at most `MAX_STATE_BYTES` bytes of fresh entropy,
because the seed request is sized for `prf.state_bytes`. -/
theorem state_bytes_bound (ent : Nat → List Nat × Nat) (e : engine)
    (h : e.st.prf.state_bytes ≤ MAX_STATE_BYTES) :
    (∀ p ∈ prf_registry, p.state_bytes ≤ MAX_STATE_BYTES) ∧
    MAX_STATE_BYTES < MAX_STATE_LEN ∧
    (seed_bytes_of ent e).length ≤ MAX_STATE_BYTES := by
  refine ⟨?_, by decide, ?_⟩
  · intro p hp
    simp only [prf_registry, List.mem_cons, List.not_mem_nil, or_false] at hp
    rcases hp with rfl | rfl | rfl | rfl <;> decide
  · calc (seed_bytes_of ent e).length ≤ e.st.prf.state_bytes := by
          simp [seed_bytes_of]
      _ ≤ MAX_STATE_BYTES := h

/-- C10 witness: instantiated at the concrete witness engine. -/
theorem state_bytes_bound_w :
    (∀ p ∈ prf_registry, p.state_bytes ≤ MAX_STATE_BYTES) ∧
    MAX_STATE_BYTES < MAX_STATE_LEN ∧
    (seed_bytes_of wEnt wEngine).length ≤ MAX_STATE_BYTES :=
  state_bytes_bound wEnt wEngine (by decide)

/-! ## Claim theorems: entropy aggregation -/

/-- C5: `ottery_get_entropy_` fails exactly when every eligible source
fails or yields zero bytes, and on success every returned byte was supplied
directly by some queried eligible source. -/
theorem entropy_error_iff (cfg : ottery_osrng_config) (rf : Nat)
    (srcs : List entropy_source) :
    ((∃ err, ottery_get_entropy_ cfg rf srcs = .error err) ↔
      ∀ s ∈ srcs, eligible cfg rf s = true →
        s.outcome = none ∨ s.outcome = some []) ∧
    (∀ bytes flags, ottery_get_entropy_ cfg rf srcs = .ok (bytes, flags) →
      bytes ≠ [] ∧ ∀ b ∈ bytes, ∃ s ∈ srcs, eligible cfg rf s = true ∧
        ∃ l, s.outcome = some l ∧ b ∈ l) := by
  unfold ottery_get_entropy_
  by_cases hnil : srcs.filter (eligible cfg rf) = []
  · rw [if_pos hnil]
    constructor
    · constructor
      · intro _ s hs he
        have : s ∈ srcs.filter (eligible cfg rf) := List.mem_filter.mpr ⟨hs, he⟩
        rw [hnil] at this
        exact absurd this (List.not_mem_nil s)
      · intro _
        exact ⟨.no_sources, rfl⟩
    · intro bytes flags hok
      exact absurd hok (by simp)
  · rw [if_neg hnil]
    by_cases hg : (gather (srcs.filter (eligible cfg rf))).1 = []
    · rw [if_pos hg]
      constructor
      · constructor
        · intro _ s hs he
          exact (gather_eq_nil_iff _).mp hg s (List.mem_filter.mpr ⟨hs, he⟩)
        · intro _
          exact ⟨.all_failed, rfl⟩
      · intro bytes flags hok
        exact absurd hok (by simp)
    · rw [if_neg hg]
      constructor
      · constructor
        · rintro ⟨err, herr⟩
          exact absurd herr (by simp)
        · intro hall
          exfalso
          refine hg ((gather_eq_nil_iff _).mpr ?_)
          intro s hs
          have hm := List.mem_filter.mp hs
          exact hall s hm.1 hm.2
      · intro bytes flags hok
        obtain ⟨hb, hf⟩ : (gather (srcs.filter (eligible cfg rf))).1 = bytes ∧
            (gather (srcs.filter (eligible cfg rf))).2 = flags := by
          simpa [Prod.ext_iff] using hok
        constructor
        · rw [← hb]; exact hg
        · intro b hbb
          rw [← hb] at hbb
          obtain ⟨s, hs, l, hl, hbl⟩ := gather_mem hbb
          have hm := List.mem_filter.mp hs
          exact ⟨s, hm.1, hm.2, l, hl, hbl⟩

/-- C5 witness: a successful concrete call, every byte of which is traced
back to the one eligible source. -/
theorem entropy_error_iff_w :
    ([1, 2, 3] : List Nat) ≠ [] ∧
    ∀ b ∈ [1, 2, 3], ∃ s ∈ [wSrc],
      eligible { wCfg with disabled_sources := 0 } 0 s = true ∧
      ∃ l, s.outcome = some l ∧ b ∈ l :=
  (entropy_error_iff { wCfg with disabled_sources := 0 } 0 [wSrc]).2
    [1, 2, 3] (wSrc.flags ||| 0) rfl

/-- C9: a source whose flag word shares any set bit with the
configuration's `disabled_sources` mask is excluded: it is ineligible and
its presence does not change the result of `ottery_get_entropy_`. -/
theorem disabled_source_excluded (cfg : ottery_osrng_config) (rf : Nat)
    (s : entropy_source) (srcs : List entropy_source)
    (h : s.flags &&& cfg.disabled_sources ≠ 0) :
    eligible cfg rf s = false ∧
    ottery_get_entropy_ cfg rf (s :: srcs) = ottery_get_entropy_ cfg rf srcs := by
  have hd : (s.flags &&& cfg.disabled_sources == 0) = false := by
    simpa using h
  have he : eligible cfg rf s = false := by
    simp [eligible, hd]
  refine ⟨he, ?_⟩
  unfold ottery_get_entropy_
  rw [List.filter_cons_of_neg (by simp [he])]

/-- C9 witness: disabling the FAST quality bit excludes the fast OS source
even though its specific source-id bit is not named in the mask. -/
theorem disabled_source_excluded_w :
    eligible wCfg 0 wSrc = false ∧
    ottery_get_entropy_ wCfg 0 [wSrc] = ottery_get_entropy_ wCfg 0 [] :=
  disabled_source_excluded wCfg 0 wSrc [] (by decide)

/-! ## Engine lemmas and claim theorems for the stir/seed/generate engine -/

theorem check_seed_of_ok {cur_pid : Nat} {e : engine} (ent : Nat → List Nat × Nat)
    (h : engine_ok cur_pid e) : check_seed ent cur_pid e = (e, []) := by
  rw [check_seed, if_pos ⟨h.1, h.2.1⟩]

theorem ensure_ready_spec (ent : Nat → List Nat × Nat) (cur_pid : Nat)
    (e : engine) (h : engine_ok cur_pid e) :
    (ensure_ready ent cur_pid e).1.st.prf = e.st.prf ∧
    (ensure_ready ent cur_pid e).1.st.magic = OTTERY_MAGIC ∧
    (ensure_ready ent cur_pid e).1.st.pid = cur_pid ∧
    (ensure_ready ent cur_pid e).1.st.pos = cpos1 e.st.prf.output_len e.st.pos ∧
    (ensure_ready ent cur_pid e).1.st.block_counter =
      cnext e.st.prf.stir_after e.st.prf.output_len e.st.pos e.st.block_counter ∧
    ctrace (ensure_ready ent cur_pid e).2 =
      ctr1 e.st.prf.stir_after e.st.prf.output_len e.st.pos e.st.block_counter := by
  obtain ⟨hm, hp, hpos, hlen, hT⟩ := h
  unfold ensure_ready
  rw [check_seed_of_ok ent ⟨hm, hp, hpos, hlen, hT⟩]
  unfold check_stir check_gen
  by_cases hstir : e.st.prf.stir_after ≤ e.st.block_counter <;>
  by_cases hgen : e.st.pos = e.st.prf.output_len <;>
  simp [hstir, hgen, stir, nextblock, cpos1, cnext, ctr1, creduce, ctrace, hm, hp]


theorem engine_ok_ensure_ready (ent : Nat → List Nat × Nat) (cur_pid : Nat)
    (e : engine) (h : engine_ok cur_pid e) :
    engine_ok cur_pid (ensure_ready ent cur_pid e).1 ∧
    (ensure_ready ent cur_pid e).1.st.pos <
      (ensure_ready ent cur_pid e).1.st.prf.output_len := by
  obtain ⟨hprf, hm, hp, hpos, hc, -⟩ := ensure_ready_spec ent cur_pid e h
  obtain ⟨-, -, hpos0, hlen, hT⟩ := h
  constructor
  · refine ⟨hm, hp, ?_, ?_, ?_⟩
    · rw [hpos, hprf]
      unfold cpos1
      split <;> omega
    · rw [hprf]; exact hlen
    · rw [hprf]; exact hT
  · rw [hpos, hprf]
    unfold cpos1
    split <;> omega

theorem engine_ok_consume {cur_pid : Nat} {e : engine} {k : Nat}
    (h : engine_ok cur_pid e) (hk : e.st.pos + k ≤ e.st.prf.output_len) :
    engine_ok cur_pid (consume e k) := by
  obtain ⟨hm, hp, hpos, hlen, hT⟩ := h
  exact ⟨hm, hp, by simpa [consume] using hk, hlen, hT⟩

theorem engine_ok_extract (ent : Nat → List Nat × Nat) (cur_pid : Nat) :
    ∀ (n : Nat) (e : engine), engine_ok cur_pid e →
      engine_ok cur_pid (extract ent cur_pid n e).2.1 := by
  intro n
  induction n using Nat.strong_induction_on with
  | _ n ih =>
    match n with
    | 0 => intro e h; simpa [extract] using h
    | n+1 =>
      intro e h
      have hok := (engine_ok_ensure_ready ent cur_pid e h).1
      rw [extract]
      by_cases h0 : min (n+1) (avail (ensure_ready ent cur_pid e).1) = 0
      · rw [dif_pos h0]; exact hok
      · rw [dif_neg h0]
        have hkle : min (n+1) (avail (ensure_ready ent cur_pid e).1) ≤
            avail (ensure_ready ent cur_pid e).1 := Nat.min_le_right _ _
        have hcons : engine_ok cur_pid (consume (ensure_ready ent cur_pid e).1
            (min (n+1) (avail (ensure_ready ent cur_pid e).1))) := by
          refine engine_ok_consume hok ?_
          have ha : avail (ensure_ready ent cur_pid e).1 =
              (ensure_ready ent cur_pid e).1.st.prf.output_len -
                (ensure_ready ent cur_pid e).1.st.pos := rfl
          omega
        exact ih _ (by omega) _ hcons


theorem gen_mem_iff_ctrace (t : List event) :
    (∃ c, event.gen c ∈ t) ↔ ctrace t ≠ [] := by
  constructor
  · rintro ⟨c, hc⟩ hnil
    have : c ∈ ctrace t := by
      rw [ctrace, List.mem_filterMap]
      exact ⟨event.gen c, hc, rfl⟩
    rw [hnil] at this
    exact absurd this (List.not_mem_nil c)
  · intro hne
    obtain ⟨b, hb⟩ := List.exists_mem_of_ne_nil _ hne
    rw [ctrace, List.mem_filterMap] at hb
    obtain ⟨a, ha, hfa⟩ := hb
    cases a with
    | seed => simp at hfa
    | stir => simp at hfa
    | gen c => exact ⟨c, by simpa using ha⟩

theorem counter_le_ensure_ready (ent : Nat → List Nat × Nat) (cur_pid : Nat)
    (e : engine) (h : engine_ok cur_pid e) :
    (ensure_ready ent cur_pid e).1.st.block_counter ≤
      (ensure_ready ent cur_pid e).1.st.prf.stir_after := by
  obtain ⟨hprf, -, -, -, hc, -⟩ := ensure_ready_spec ent cur_pid e h
  obtain ⟨-, -, -, -, hT⟩ := h
  rw [hc, hprf]
  unfold cnext creduce
  split <;> split <;> omega

theorem counter_le_extract (ent : Nat → List Nat × Nat) (cur_pid : Nat) :
    ∀ (n : Nat) (e : engine), engine_ok cur_pid e →
      (e.st.block_counter ≤ e.st.prf.stir_after ∨ 1 ≤ n) →
      (extract ent cur_pid n e).2.1.st.block_counter ≤
        (extract ent cur_pid n e).2.1.st.prf.stir_after := by
  intro n
  induction n using Nat.strong_induction_on with
  | _ n ih =>
    match n with
    | 0 =>
      intro e h hc
      simp only [extract]
      rcases hc with hc | hc
      · exact hc
      · omega
    | n+1 =>
      intro e h _
      have hok := (engine_ok_ensure_ready ent cur_pid e h).1
      have hle := counter_le_ensure_ready ent cur_pid e h
      rw [extract]
      by_cases h0 : min (n+1) (avail (ensure_ready ent cur_pid e).1) = 0
      · rw [dif_pos h0]; exact hle
      · rw [dif_neg h0]
        have ha : avail (ensure_ready ent cur_pid e).1 =
            (ensure_ready ent cur_pid e).1.st.prf.output_len -
              (ensure_ready ent cur_pid e).1.st.pos := rfl
        have hcons : engine_ok cur_pid (consume (ensure_ready ent cur_pid e).1
            (min (n+1) (avail (ensure_ready ent cur_pid e).1))) := by
          refine engine_ok_consume hok ?_
          omega
        refine ih _ (by omega) _ hcons (Or.inl ?_)
        simpa [consume] using hle


/-- C1: on a valid engine, `ensure_ready` stirs exactly when `block_counter`
has reached the per-PRF `stir_after` threshold (the header's equal-or-exceed
comparison); under the engine's counter invariant the comparison fires
exactly at equality, so a stir never happens at a smaller counter and is
never skipped at the threshold; immediately after a stir `block_counter` is
zero; and the counter invariant is preserved by every extraction. -/
theorem stir_at_threshold (ent : Nat → List Nat × Nat) (cur_pid : Nat)
    (e : engine) (n : Nat) (h : engine_ok cur_pid e) :
    (event.stir ∈ (ensure_ready ent cur_pid e).2 ↔
      e.st.prf.stir_after ≤ e.st.block_counter) ∧
    (e.st.block_counter ≤ e.st.prf.stir_after →
      (event.stir ∈ (ensure_ready ent cur_pid e).2 ↔
        e.st.block_counter = e.st.prf.stir_after)) ∧
    (stir ent e).st.block_counter = 0 ∧
    (e.st.block_counter ≤ e.st.prf.stir_after →
      (extract ent cur_pid n e).2.1.st.block_counter ≤
        (extract ent cur_pid n e).2.1.st.prf.stir_after) := by
  have hmem : event.stir ∈ (ensure_ready ent cur_pid e).2 ↔
      e.st.prf.stir_after ≤ e.st.block_counter := by
    unfold ensure_ready
    rw [check_seed_of_ok ent h]
    unfold check_stir check_gen
    by_cases hstir : e.st.prf.stir_after ≤ e.st.block_counter <;>
    by_cases hgen : e.st.pos = e.st.prf.output_len <;>
      simp [hstir, hgen, stir, nextblock]
  refine ⟨hmem, ?_, rfl, fun hc => counter_le_extract ent cur_pid n e h (Or.inl hc)⟩
  intro hc
  rw [hmem]
  omega

/-- C6: `pos` never exceeds `prf.output_len`; after `ensure_ready` (hence
whenever bytes are about to be served) `pos < prf.output_len`; and
`ensure_ready` regenerates the buffer exactly when `pos = prf.output_len`
(buffer fully consumed). -/
theorem pos_invariant (ent : Nat → List Nat × Nat) (cur_pid : Nat)
    (e : engine) (n : Nat) (h : engine_ok cur_pid e) :
    e.st.pos ≤ e.st.prf.output_len ∧
    (ensure_ready ent cur_pid e).1.st.pos <
      (ensure_ready ent cur_pid e).1.st.prf.output_len ∧
    ((∃ c, event.gen c ∈ (ensure_ready ent cur_pid e).2) ↔
      e.st.pos = e.st.prf.output_len) ∧
    (extract ent cur_pid n e).2.1.st.pos ≤
      (extract ent cur_pid n e).2.1.st.prf.output_len := by
  refine ⟨h.2.2.1, (engine_ok_ensure_ready ent cur_pid e h).2, ?_,
    (engine_ok_extract ent cur_pid n e h).2.2.1⟩
  rw [gen_mem_iff_ctrace, (ensure_ready_spec ent cur_pid e h).2.2.2.2.2]
  unfold ctr1
  by_cases hgen : e.st.pos = e.st.prf.output_len <;> simp [hgen]


/-- C3: if the recorded pid differs from the current process id at the
start of a byte-producing request, the engine performs a full seed — fresh
entropy, `prf.setup`, `block_counter = 0`, pid updated — before any byte is
yielded, and every produced byte comes from the freshly seeded state. -/
theorem fork_forces_reseed (ent : Nat → List Nat × Nat) (cur_pid : Nat)
    (e : engine) (m : Nat) (hpid : e.st.pid ≠ cur_pid)
    (hT : 1 ≤ e.st.prf.stir_after) (hn : m + 1 ≤ e.st.prf.output_len) :
    (extract ent cur_pid (m+1) e).2.2 = [event.seed, event.gen 0] ∧
    (extract ent cur_pid (m+1) e).1 =
      (e.st.prf.generate (e.st.prf.setup (seed_bytes_of ent e)) 0).take (m+1) ∧
    (extract ent cur_pid (m+1) e).2.1.st.pid = cur_pid ∧
    (extract ent cur_pid (m+1) e).2.1.st.block_counter = 1 ∧
    (extract ent cur_pid (m+1) e).2.1.st.magic = OTTERY_MAGIC := by
  have hseed : check_seed ent cur_pid e = (full_seed ent cur_pid e, [.seed]) := by
    rw [check_seed, if_neg]
    tauto
  have hstir : check_stir ent (full_seed ent cur_pid e) =
      (full_seed ent cur_pid e, []) := by
    rw [check_stir, if_neg]
    simp [full_seed]
    omega
  have hgen : check_gen (full_seed ent cur_pid e) =
      (nextblock (full_seed ent cur_pid e), [.gen 0]) := by
    rw [check_gen, if_pos (by simp [full_seed])]
    simp [full_seed]
  have her : ensure_ready ent cur_pid e =
      (nextblock (full_seed ent cur_pid e), [.seed, .gen 0]) := by
    simp [ensure_ready, hseed, hstir, hgen]
  have havail : avail (nextblock (full_seed ent cur_pid e)) =
      e.st.prf.output_len := by
    simp [avail, nextblock, full_seed]
  have hk : min (m+1) (avail (nextblock (full_seed ent cur_pid e))) = m+1 := by
    rw [havail]
    omega
  rw [extract]
  simp only [her]
  rw [hk, dif_neg (Nat.succ_ne_zero m), Nat.sub_self]
  simp only [extract]
  refine ⟨by simp, ?_, ?_, ?_, ?_⟩
  · simp [copied, nextblock, full_seed]
  · simp [consume, nextblock, full_seed]
  · simp [consume, nextblock, full_seed]
  · simp [consume, nextblock, full_seed]


theorem inv7_ensure_ready (ent : Nat → List Nat × Nat) (cur_pid : Nat)
    (e : engine) (h : engine_ok cur_pid e) (hb : bytes_ok e)
    (hz : consumed_zero e) :
    bytes_ok (ensure_ready ent cur_pid e).1 ∧
    consumed_zero (ensure_ready ent cur_pid e).1 := by
  obtain ⟨hb1, hb2⟩ := hb
  unfold ensure_ready
  rw [check_seed_of_ok ent h]
  unfold check_stir check_gen
  by_cases hstir : e.st.prf.stir_after ≤ e.st.block_counter <;>
  by_cases hgen : e.st.pos = e.st.prf.output_len <;>
    simp [hstir, hgen, stir, nextblock, bytes_ok, consumed_zero, hb1, hb2] <;>
    exact hz

theorem inv7_consume (e : engine) (k : Nat)
    (hb : bytes_ok e) (hz : consumed_zero e)
    (hk : e.st.pos + k ≤ e.st.prf.output_len) :
    bytes_ok (consume e k) ∧ consumed_zero (consume e k) := by
  refine ⟨⟨?_, by simpa [consume] using hb.2⟩, ?_⟩
  · simp [consume, clear_region_length, hb.1]
  · show (clear_region e.st.buffer e.st.pos k).take (e.st.pos + k) =
      List.replicate (e.st.pos + k) 0
    exact clear_region_take _ _ _ (by rw [hb.1]; exact hk) hz

theorem inv7_extract (ent : Nat → List Nat × Nat) (cur_pid : Nat) :
    ∀ (n : Nat) (e : engine), engine_ok cur_pid e → bytes_ok e →
      consumed_zero e →
      bytes_ok (extract ent cur_pid n e).2.1 ∧
      consumed_zero (extract ent cur_pid n e).2.1 := by
  intro n
  induction n using Nat.strong_induction_on with
  | _ n ih =>
    match n with
    | 0 =>
      intro e h hb hz
      simp only [extract]
      exact ⟨hb, hz⟩
    | n+1 =>
      intro e h hb hz
      have hok := (engine_ok_ensure_ready ent cur_pid e h).1
      obtain ⟨hb1, hz1⟩ := inv7_ensure_ready ent cur_pid e h hb hz
      rw [extract]
      by_cases h0 : min (n+1) (avail (ensure_ready ent cur_pid e).1) = 0
      · rw [dif_pos h0]; exact ⟨hb1, hz1⟩
      · rw [dif_neg h0]
        have ha : avail (ensure_ready ent cur_pid e).1 =
            (ensure_ready ent cur_pid e).1.st.prf.output_len -
              (ensure_ready ent cur_pid e).1.st.pos := rfl
        have hkle : (ensure_ready ent cur_pid e).1.st.pos +
            min (n+1) (avail (ensure_ready ent cur_pid e).1) ≤
            (ensure_ready ent cur_pid e).1.st.prf.output_len := by
          omega
        obtain ⟨hb2, hz2⟩ := inv7_consume _ _ hb1 hz1 hkle
        exact ih _ (by omega) _ (engine_ok_consume hok hkle) hb2 hz2

/-- C7: `ottery_memclear_` leaves every one of the `len` requested bytes
equal to zero and preserves the region's length; the seed bytes read back
as zero immediately after a seed or stir consumes them; and after any
`extract` the consumed region of the output buffer reads back as zero. -/
theorem erase_reads_zero (ent : Nat → List Nat × Nat) (cur_pid : Nat)
    (e : engine) (n : Nat) (mem : List Nat) (len i : Nat)
    (h1 : i < len) (h2 : i < mem.length) (h : engine_ok cur_pid e)
    (hb : bytes_ok e) (hz : consumed_zero e) :
    (ottery_memclear_ mem len)[i]? = some 0 ∧
    (ottery_memclear_ mem len).length = mem.length ∧
    seed_scratch_after ent e =
      List.replicate (seed_bytes_of ent e).length 0 ∧
    consumed_zero (extract ent cur_pid n e).2.1 := by
  refine ⟨ottery_memclear_getElem mem len i h1 h2,
    ottery_memclear_length mem len, ?_,
    (inv7_extract ent cur_pid n e h hb hz).2⟩
  simp [seed_scratch_after, ottery_memclear_, List.drop_length]


theorem wEngine_ok : engine_ok 7 wEngine :=
  ⟨rfl, rfl, by decide, by decide, by decide⟩

theorem wEngine_bytes : bytes_ok wEngine :=
  ⟨rfl, fun s c => by simp [wEngine, wState, wPrf]⟩

theorem wEngine_zero : consumed_zero wEngine := rfl

/-- C1 witness: instantiated at the concrete witness engine. -/
theorem stir_at_threshold_w :
    (event.stir ∈ (ensure_ready wEnt 7 wEngine).2 ↔
      wEngine.st.prf.stir_after ≤ wEngine.st.block_counter) ∧
    (wEngine.st.block_counter ≤ wEngine.st.prf.stir_after →
      (event.stir ∈ (ensure_ready wEnt 7 wEngine).2 ↔
        wEngine.st.block_counter = wEngine.st.prf.stir_after)) ∧
    (stir wEnt wEngine).st.block_counter = 0 ∧
    (wEngine.st.block_counter ≤ wEngine.st.prf.stir_after →
      (extract wEnt 7 1 wEngine).2.1.st.block_counter ≤
        (extract wEnt 7 1 wEngine).2.1.st.prf.stir_after) :=
  stir_at_threshold wEnt 7 wEngine 1 wEngine_ok

/-- C3 witness: a pid change from 7 to 99 forces the full seed before the
three requested bytes are produced. -/
theorem fork_forces_reseed_w :
    (extract wEnt 99 3 wEngine).2.2 = [event.seed, event.gen 0] ∧
    (extract wEnt 99 3 wEngine).1 =
      (wEngine.st.prf.generate
        (wEngine.st.prf.setup (seed_bytes_of wEnt wEngine)) 0).take 3 ∧
    (extract wEnt 99 3 wEngine).2.1.st.pid = 99 ∧
    (extract wEnt 99 3 wEngine).2.1.st.block_counter = 1 ∧
    (extract wEnt 99 3 wEngine).2.1.st.magic = OTTERY_MAGIC :=
  fork_forces_reseed wEnt 99 wEngine 2 (by decide) (by decide) (by decide)

/-- C6 witness: instantiated at the concrete witness engine. -/
theorem pos_invariant_w :
    wEngine.st.pos ≤ wEngine.st.prf.output_len ∧
    (ensure_ready wEnt 7 wEngine).1.st.pos <
      (ensure_ready wEnt 7 wEngine).1.st.prf.output_len ∧
    ((∃ c, event.gen c ∈ (ensure_ready wEnt 7 wEngine).2) ↔
      wEngine.st.pos = wEngine.st.prf.output_len) ∧
    (extract wEnt 7 3 wEngine).2.1.st.pos ≤
      (extract wEnt 7 3 wEngine).2.1.st.prf.output_len :=
  pos_invariant wEnt 7 wEngine 3 wEngine_ok

/-- C7 witness: instantiated at a concrete region and the concrete witness
engine. -/
theorem erase_reads_zero_w :
    (ottery_memclear_ [5, 6, 7] 2)[1]? = some 0 ∧
    (ottery_memclear_ [5, 6, 7] 2).length = ([5, 6, 7] : List Nat).length ∧
    seed_scratch_after wEnt wEngine =
      List.replicate (seed_bytes_of wEnt wEngine).length 0 ∧
    consumed_zero (extract wEnt 7 3 wEngine).2.1 :=
  erase_reads_zero wEnt 7 wEngine 3 [5, 6, 7] 2 1 (by decide) (by decide)
    wEngine_ok wEngine_bytes wEngine_zero

/-! ## Counter-sequence equivalence (claim C2) -/

theorem ctrace_append (s t : List event) :
    ctrace (s ++ t) = ctrace s ++ ctrace t := by
  simp [ctrace, List.filterMap_append]

theorem extract_csim (ent : Nat → List Nat × Nat) (cur_pid : Nat) :
    ∀ (n : Nat) (e : engine), engine_ok cur_pid e →
      ctrace (extract ent cur_pid n e).2.2 =
        (csim e.st.prf.stir_after e.st.prf.output_len n e.st.pos
          e.st.block_counter).1 ∧
      (extract ent cur_pid n e).2.1.st.pos =
        (csim e.st.prf.stir_after e.st.prf.output_len n e.st.pos
          e.st.block_counter).2.1 ∧
      (extract ent cur_pid n e).2.1.st.block_counter =
        (csim e.st.prf.stir_after e.st.prf.output_len n e.st.pos
          e.st.block_counter).2.2 ∧
      (extract ent cur_pid n e).2.1.st.prf = e.st.prf := by
  intro n
  induction n using Nat.strong_induction_on with
  | _ n ih =>
    match n with
    | 0 =>
      intro e h
      simp [extract, csim, ctrace]
    | n+1 =>
      intro e h
      obtain ⟨hprf, hm, hp, hpos, hc, htr⟩ := ensure_ready_spec ent cur_pid e h
      have hok := (engine_ok_ensure_ready ent cur_pid e h).1
      have hav : avail (ensure_ready ent cur_pid e).1 =
          e.st.prf.output_len - cpos1 e.st.prf.output_len e.st.pos := by
        rw [avail, hprf, hpos]
      rw [extract, csim]
      by_cases h0 : min (n+1)
          (e.st.prf.output_len - cpos1 e.st.prf.output_len e.st.pos) = 0
      · rw [dif_pos (by rw [hav]; exact h0), dif_pos h0]
        exact ⟨htr, hpos, hc, hprf⟩
      · rw [dif_neg (by rw [hav]; exact h0), dif_neg h0]
        rw [hav]
        set K := min (n+1)
          (e.st.prf.output_len - cpos1 e.st.prf.output_len e.st.pos) with hK
        have hok2 : engine_ok cur_pid
            (consume (ensure_ready ent cur_pid e).1 K) := by
          refine engine_ok_consume hok ?_
          rw [hpos, hprf]
          have : K ≤ e.st.prf.output_len - cpos1 e.st.prf.output_len e.st.pos :=
            Nat.min_le_right _ _
          omega
        have hE2prf : (consume (ensure_ready ent cur_pid e).1 K).st.prf =
            e.st.prf := by simp [consume, hprf]
        have hE2pos : (consume (ensure_ready ent cur_pid e).1 K).st.pos =
            cpos1 e.st.prf.output_len e.st.pos + K := by simp [consume, hpos]
        have hE2c : (consume (ensure_ready ent cur_pid e).1 K).st.block_counter =
            cnext e.st.prf.stir_after e.st.prf.output_len e.st.pos
              e.st.block_counter := by simp [consume, hc]
        have hrec := ih (n+1 - K) (by omega) _ hok2
        rw [hE2prf, hE2pos, hE2c] at hrec
        refine ⟨?_, hrec.2.1, hrec.2.2.1, hrec.2.2.2⟩
        rw [ctrace_append, htr, hrec.1]

theorem seedstir_spec (ent : Nat → List Nat × Nat) (cur_pid : Nat)
    (e : engine) (h : engine_ok cur_pid e) :
    (seedstir ent cur_pid e).1.st.prf = e.st.prf ∧
    (seedstir ent cur_pid e).1.st.magic = OTTERY_MAGIC ∧
    (seedstir ent cur_pid e).1.st.pid = cur_pid ∧
    (seedstir ent cur_pid e).1.st.pos = e.st.pos ∧
    (seedstir ent cur_pid e).1.st.block_counter =
      creduce e.st.prf.stir_after e.st.block_counter ∧
    ctrace (seedstir ent cur_pid e).2 = [] := by
  obtain ⟨hm, hp, hpos, hlen, hT⟩ := h
  unfold seedstir
  rw [check_seed_of_ok ent ⟨hm, hp, hpos, hlen, hT⟩]
  unfold check_stir
  by_cases hstir : e.st.prf.stir_after ≤ e.st.block_counter <;>
    simp [hstir, stir, creduce, ctrace, hm, hp]

theorem engine_ok_seedstir (ent : Nat → List Nat × Nat) (cur_pid : Nat)
    (e : engine) (h : engine_ok cur_pid e) :
    engine_ok cur_pid (seedstir ent cur_pid e).1 := by
  obtain ⟨hprf, hm, hp, hpos, hc, -⟩ := seedstir_spec ent cur_pid e h
  exact ⟨hm, hp, by rw [hpos, hprf]; exact h.2.2.1, by rw [hprf]; exact h.2.2.2.1,
    by rw [hprf]; exact h.2.2.2.2⟩

theorem ensure_ready_decomp (ent : Nat → List Nat × Nat) (cur_pid : Nat)
    (e : engine) :
    ensure_ready ent cur_pid e =
      ((check_gen (seedstir ent cur_pid e).1).1,
       (seedstir ent cur_pid e).2 ++ (check_gen (seedstir ent cur_pid e).1).2) :=
  rfl


theorem extract_direct_csim (ent : Nat → List Nat × Nat) (cur_pid : Nat) :
    ∀ (n : Nat) (e : engine), engine_ok cur_pid e →
      ctrace (extract_direct ent cur_pid n e).2.2 =
        (csim e.st.prf.stir_after e.st.prf.output_len n e.st.pos
          e.st.block_counter).1 ∧
      (extract_direct ent cur_pid n e).2.1.st.block_counter =
        (csim e.st.prf.stir_after e.st.prf.output_len n e.st.pos
          e.st.block_counter).2.2 ∧
      (extract_direct ent cur_pid n e).2.1.st.prf = e.st.prf := by
  intro n
  induction n using Nat.strong_induction_on with
  | _ n ih =>
    match n with
    | 0 =>
      intro e h
      simp [extract_direct, csim, ctrace]
    | n+1 =>
      intro e h
      obtain ⟨hsprf, hsm, hsp, hspos, hsc, hstr⟩ := seedstir_spec ent cur_pid e h
      have hsok := engine_ok_seedstir ent cur_pid e h
      rw [extract_direct]
      by_cases hd : (seedstir ent cur_pid e).1.st.prf.output_len ≤ n+1 ∧
          (seedstir ent cur_pid e).1.st.pos =
            (seedstir ent cur_pid e).1.st.prf.output_len ∧
          1 ≤ (seedstir ent cur_pid e).1.st.prf.output_len
      · rw [dif_pos hd]
        obtain ⟨hd1, hd2, hd3⟩ := hd
        rw [hsprf] at hd1 hd3
        rw [hspos, hsprf] at hd2
        have hcp : cpos1 e.st.prf.output_len e.st.pos = 0 := by
          simp [cpos1, hd2]
        have hct : ctr1 e.st.prf.stir_after e.st.prf.output_len e.st.pos
            e.st.block_counter =
            [creduce e.st.prf.stir_after e.st.block_counter] := by
          simp [ctr1, hd2]
        have hcn : cnext e.st.prf.stir_after e.st.prf.output_len e.st.pos
            e.st.block_counter =
            creduce e.st.prf.stir_after e.st.block_counter + 1 := by
          simp [cnext, hd2]
        have hbok : engine_ok cur_pid (bump (seedstir ent cur_pid e).1) := by
          obtain ⟨hm, hp, hpos, hlen, hT⟩ := hsok
          exact ⟨hm, hp, hpos, hlen, hT⟩
        have hbprf : (bump (seedstir ent cur_pid e).1).st.prf = e.st.prf := by
          simp [bump, hsprf]
        have hbpos : (bump (seedstir ent cur_pid e).1).st.pos = e.st.pos := by
          simp [bump, hspos]
        have hbc : (bump (seedstir ent cur_pid e).1).st.block_counter =
            creduce e.st.prf.stir_after e.st.block_counter + 1 := by
          simp [bump, hsc]
        rw [hsprf, hsc]
        rw [csim]
        rw [dif_neg (by rw [hcp]; omega)]
        rw [hcp, Nat.sub_zero, Nat.min_eq_right hd1, Nat.zero_add, hct, hcn]
        have hrec := ih (n+1 - e.st.prf.output_len) (by omega) _ hbok
        rw [hbprf, hbpos, hbc, hd2] at hrec
        refine ⟨?_, hrec.2.1, hrec.2.2⟩
        rw [ctrace_append, ctrace_append, hstr, hrec.1]
        simp [ctrace]
      · rw [dif_neg hd]
        have herd := ensure_ready_decomp ent cur_pid e
        have hE1 : (check_gen (seedstir ent cur_pid e).1).1 =
            (ensure_ready ent cur_pid e).1 := by rw [herd]
        obtain ⟨hprf, hm, hp, hpos, hc, htr⟩ := ensure_ready_spec ent cur_pid e h
        have hok := (engine_ok_ensure_ready ent cur_pid e h).1
        have hav : avail (check_gen (seedstir ent cur_pid e).1).1 =
            e.st.prf.output_len - cpos1 e.st.prf.output_len e.st.pos := by
          rw [hE1, avail, hprf, hpos]
        rw [csim]
        by_cases h0 : min (n+1)
            (e.st.prf.output_len - cpos1 e.st.prf.output_len e.st.pos) = 0
        · rw [dif_pos (by rw [hav]; exact h0), dif_pos h0]
          rw [hE1]
          refine ⟨?_, hc, hprf⟩
          have htr2 := htr
          simp only [herd] at htr2
          exact htr2
        · rw [dif_neg (by rw [hav]; exact h0), dif_neg h0]
          rw [hav, hE1]
          set K := min (n+1)
            (e.st.prf.output_len - cpos1 e.st.prf.output_len e.st.pos) with hK
          have hok2 : engine_ok cur_pid
              (consume (ensure_ready ent cur_pid e).1 K) := by
            refine engine_ok_consume hok ?_
            rw [hpos, hprf]
            have : K ≤ e.st.prf.output_len - cpos1 e.st.prf.output_len e.st.pos :=
              Nat.min_le_right _ _
            omega
          have hE2prf : (consume (ensure_ready ent cur_pid e).1 K).st.prf =
              e.st.prf := by simp [consume, hprf]
          have hE2pos : (consume (ensure_ready ent cur_pid e).1 K).st.pos =
              cpos1 e.st.prf.output_len e.st.pos + K := by simp [consume, hpos]
          have hE2c : (consume (ensure_ready ent cur_pid e).1 K).st.block_counter =
              cnext e.st.prf.stir_after e.st.prf.output_len e.st.pos
                e.st.block_counter := by simp [consume, hc]
          have hrec := ih (n+1 - K) (by omega) _ hok2
          rw [hE2prf, hE2pos, hE2c] at hrec
          refine ⟨?_, hrec.2.1, hrec.2.2⟩
          have htr2 := htr
          simp only [herd] at htr2
          rw [ctrace_append, htr2, hrec.1]


theorem creduce_idem (T c : Nat) : creduce T (creduce T c) = creduce T c := by
  unfold creduce
  by_cases h : T ≤ c <;> simp [h]

theorem ctr1_creduce (T len pos c : Nat) :
    ctr1 T len pos (creduce T c) = ctr1 T len pos c := by
  unfold ctr1
  rw [creduce_idem]

theorem cnext_creduce (T len pos c : Nat) :
    cnext T len pos (creduce T c) = cnext T len pos c := by
  unfold cnext
  rw [creduce_idem]

theorem csim_creduce (T len : Nat) (n pos c : Nat) :
    csim T len (n+1) pos (creduce T c) = csim T len (n+1) pos c := by
  rw [csim, csim, ctr1_creduce, cnext_creduce]

theorem csim_congr (T len : Nat) (n pos : Nat) {c cq : Nat}
    (h : creduce T c = creduce T cq) :
    (csim T len n pos c).1 = (csim T len n pos cq).1 ∧
    (csim T len n pos c).2.1 = (csim T len n pos cq).2.1 ∧
    creduce T (csim T len n pos c).2.2 =
      creduce T (csim T len n pos cq).2.2 := by
  match n with
  | 0 => simp [csim, h]
  | m+1 =>
    rw [← csim_creduce T len m pos c, h, csim_creduce T len m pos cq]
    exact ⟨rfl, rfl, rfl⟩


theorem csim_ne_bail {T len n pos c : Nat} (hne : pos ≠ len)
    (h0 : min (n+1) (len - pos) = 0) :
    csim T len (n+1) pos c = ([], pos, creduce T c) := by
  rw [csim, dif_pos (by simpa [cpos1, hne] using h0)]
  simp [ctr1, cpos1, cnext, hne]

theorem csim_ne_step {T len n pos c : Nat} (hne : pos ≠ len)
    (h0 : min (n+1) (len - pos) ≠ 0) :
    csim T len (n+1) pos c =
      csim T len (n+1 - min (n+1) (len - pos)) (pos + min (n+1) (len - pos))
        (creduce T c) := by
  rw [csim, dif_neg (by simpa [cpos1, hne] using h0)]
  simp [ctr1, cpos1, cnext, hne]

theorem csim_eq_bail {T len n pos c : Nat} (hpos : pos = len)
    (h0 : min (n+1) len = 0) :
    csim T len (n+1) pos c = ([creduce T c], 0, creduce T c + 1) := by
  rw [csim, dif_pos (by simpa [cpos1, hpos] using h0)]
  simp [ctr1, cpos1, cnext, hpos]

theorem csim_eq_step {T len n pos c : Nat} (hpos : pos = len)
    (h0 : min (n+1) len ≠ 0) :
    csim T len (n+1) pos c =
      ([creduce T c] ++
        (csim T len (n+1 - min (n+1) len) (min (n+1) len) (creduce T c + 1)).1,
       (csim T len (n+1 - min (n+1) len) (min (n+1) len)
         (creduce T c + 1)).2) := by
  rw [csim, dif_neg (by simpa [cpos1, hpos] using h0)]
  simp [ctr1, cpos1, cnext, hpos]


theorem csim_peel (T len : Nat) (hlen : 1 ≤ len) (n pos c : Nat) :
    (csim T len (n+1) pos c).1 =
      (csim T len 1 pos c).1 ++
        (csim T len n (csim T len 1 pos c).2.1 (csim T len 1 pos c).2.2).1 ∧
    (csim T len (n+1) pos c).2.1 =
      (csim T len n (csim T len 1 pos c).2.1 (csim T len 1 pos c).2.2).2.1 ∧
    creduce T (csim T len (n+1) pos c).2.2 =
      creduce T (csim T len n (csim T len 1 pos c).2.1
        (csim T len 1 pos c).2.2).2.2 := by
  by_cases hpos : pos = len
  · have h1 : min 1 len = 1 := by omega
    have hone : csim T len 1 pos c =
        ([creduce T c], 1, creduce T c + 1) := by
      rw [csim_eq_step hpos (by omega), h1]
      simp [csim]
    rw [hone]
    match n with
    | 0 =>
      rw [csim_eq_step hpos (by omega), h1]
      simp [csim, creduce_idem]
    | m+1 =>
      rw [csim_eq_step hpos (by omega)]
      by_cases hl1 : len = 1
      · have hk : min (m+1+1) len = 1 := by omega
        rw [hk]
        subst hl1
        simp
      · have hA2 : 2 ≤ len := by omega
        have hk2 : min (m+1) (len - 1) = min (m+1+1) len - 1 := by omega
        have hkk : 1 ≤ min (m+1+1) len := by omega
        have htail : csim T len (m+1) 1 (creduce T c + 1) =
            csim T len (m+1+1 - min (m+1+1) len)
              (min (m+1+1) len) (creduce T (creduce T c + 1)) := by
          rw [csim_ne_step (by omega) (by omega), hk2]
          congr 1 <;> omega
        rw [htail]
        obtain ⟨g1, g2, g3⟩ := csim_congr T len
          (m+1+1 - min (m+1+1) len) (min (m+1+1) len)
          (creduce_idem T (creduce T c + 1))
        rw [g1, g2, g3]
        simp
  · by_cases hA : len - pos = 0
    · have hone : csim T len 1 pos c = ([], pos, creduce T c) :=
        csim_ne_bail hpos (by omega)
      rw [hone, csim_ne_bail hpos (by omega)]
      match n with
      | 0 => simp [csim, creduce_idem]
      | m+1 =>
        rw [csim_ne_bail hpos (by omega)]
        simp [creduce_idem]
    · have hone : csim T len 1 pos c = ([], pos + 1, creduce T c) := by
        rw [csim_ne_step hpos (by omega)]
        have : min 1 (len - pos) = 1 := by omega
        rw [this]
        simp [csim]
      rw [hone]
      match n with
      | 0 =>
        rw [csim_ne_step hpos (by omega)]
        have : min 1 (len - pos) = 1 := by omega
        rw [this]
        simp [csim, creduce_idem]
      | m+1 =>
        rw [csim_ne_step hpos (by omega)]
        by_cases hA1 : len - pos = 1
        · have hk : min (m+1+1) (len - pos) = 1 := by omega
          rw [hk]
          simp
        · have hA2 : 2 ≤ len - pos := by omega
          have hk2 : min (m+1) (len - (pos+1)) =
              min (m+1+1) (len - pos) - 1 := by omega
          have hkk : 1 ≤ min (m+1+1) (len - pos) := by omega
          have htail : csim T len (m+1) (pos+1) (creduce T c) =
              csim T len (m+1+1 - min (m+1+1) (len - pos))
                (pos + min (m+1+1) (len - pos))
                (creduce T (creduce T c)) := by
            rw [csim_ne_step (by omega) (by omega), hk2]
            congr 1 <;> omega
          rw [htail]
          obtain ⟨g1, g2, g3⟩ := csim_congr T len
            (m+1+1 - min (m+1+1) (len - pos))
            (pos + min (m+1+1) (len - pos))
            (creduce_idem T (creduce T c))
          rw [g1, g2, g3]
          simp


theorem csim_split (T len : Nat) (hlen : 1 ≤ len) :
    ∀ (n1 n2 pos c : Nat),
    (csim T len (n1+n2) pos c).1 =
      (csim T len n1 pos c).1 ++
        (csim T len n2 (csim T len n1 pos c).2.1
          (csim T len n1 pos c).2.2).1 ∧
    (csim T len (n1+n2) pos c).2.1 =
      (csim T len n2 (csim T len n1 pos c).2.1
        (csim T len n1 pos c).2.2).2.1 ∧
    creduce T (csim T len (n1+n2) pos c).2.2 =
      creduce T (csim T len n2 (csim T len n1 pos c).2.1
        (csim T len n1 pos c).2.2).2.2 := by
  intro n1
  induction n1 with
  | zero =>
    intro n2 pos c
    simp [csim]
  | succ m ih =>
    intro n2 pos c
    have hidx : m + 1 + n2 = (m + n2) + 1 := by omega
    rw [hidx]
    obtain ⟨p1, p2, p3⟩ := csim_peel T len hlen (m+n2) pos c
    obtain ⟨q1, q2, q3⟩ := ih n2 (csim T len 1 pos c).2.1
      (csim T len 1 pos c).2.2
    obtain ⟨r1, r2, r3⟩ := csim_peel T len hlen m pos c
    obtain ⟨w1, w2, w3⟩ := csim_congr T len n2
      (csim T len m (csim T len 1 pos c).2.1
        (csim T len 1 pos c).2.2).2.1 r3
    rw [p1, p2, p3, q1, q2, q3, r1, r2, w1, w2, w3]
    exact ⟨by rw [List.append_assoc], rfl, rfl⟩


theorem extract_split (ent : Nat → List Nat × Nat) (cur_pid : Nat)
    (e : engine) (n1 n2 : Nat) (h : engine_ok cur_pid e) :
    ctrace (extract ent cur_pid (n1+n2) e).2.2 =
      ctrace (extract ent cur_pid n1 e).2.2 ++
      ctrace (extract ent cur_pid n2 (extract ent cur_pid n1 e).2.1).2.2 := by
  obtain ⟨a1, -, -, -⟩ := extract_csim ent cur_pid (n1+n2) e h
  obtain ⟨b1, b2, b3, b4⟩ := extract_csim ent cur_pid n1 e h
  have hok1 := engine_ok_extract ent cur_pid n1 e h
  obtain ⟨c1, -, -, -⟩ := extract_csim ent cur_pid n2 _ hok1
  rw [b4, b2, b3] at c1
  obtain ⟨s1, -, -⟩ := csim_split e.st.prf.stir_after e.st.prf.output_len
    h.2.2.2.1 n1 n2 e.st.pos e.st.block_counter
  rw [a1, b1, c1, s1]

theorem extract1s_trace (ent : Nat → List Nat × Nat) (cur_pid : Nat) :
    ∀ (m : Nat) (e : engine), engine_ok cur_pid e →
      ctrace (extract1s ent cur_pid m e).2 =
        ctrace (extract ent cur_pid m e).2.2 := by
  intro m
  induction m with
  | zero =>
    intro e h
    simp [extract1s, extract, ctrace]
  | succ k ih =>
    intro e h
    have hsplit := extract_split ent cur_pid e 1 k h
    have hok1 := engine_ok_extract ent cur_pid 1 e h
    rw [extract1s, ctrace_append, ih _ hok1]
    rw [show 1 + k = k + 1 from by omega] at hsplit
    rw [hsplit]


/-- C2: the sequence of block-counter values passed to `prf.generate` is
the same whether a request is split into multiple `extract` calls or made
as one call for the same total byte count: a request for `n1+n2` bytes
consumes exactly the counter sequence of a request for `n1` followed by one
for `n2`; `m` one-byte calls consume the counter sequence of one `m`-byte
call; and the direct-to-destination path consumes the same counter sequence
as the byte-by-byte buffered path. -/
theorem counter_seq_split (ent : Nat → List Nat × Nat) (cur_pid : Nat)
    (e : engine) (n n1 n2 m : Nat) (h : engine_ok cur_pid e) :
    (ctrace (extract ent cur_pid (n1+n2) e).2.2 =
      ctrace (extract ent cur_pid n1 e).2.2 ++
      ctrace (extract ent cur_pid n2 (extract ent cur_pid n1 e).2.1).2.2) ∧
    (ctrace (extract1s ent cur_pid m e).2 =
      ctrace (extract ent cur_pid m e).2.2) ∧
    (ctrace (extract_direct ent cur_pid n e).2.2 =
      ctrace (extract ent cur_pid n e).2.2) := by
  refine ⟨extract_split ent cur_pid e n1 n2 h,
    extract1s_trace ent cur_pid m e h, ?_⟩
  obtain ⟨d1, -, -⟩ := extract_direct_csim ent cur_pid n e h
  obtain ⟨a1, -, -, -⟩ := extract_csim ent cur_pid n e h
  rw [d1, a1]

/-- C2 witness: instantiated at the concrete witness engine (a 2+6-byte
split, four one-byte calls, and a nine-byte direct request). -/
theorem counter_seq_split_w :
    (ctrace (extract wEnt 7 (2+6) wEngine).2.2 =
      ctrace (extract wEnt 7 2 wEngine).2.2 ++
      ctrace (extract wEnt 7 6 (extract wEnt 7 2 wEngine).2.1).2.2) ∧
    (ctrace (extract1s wEnt 7 4 wEngine).2 =
      ctrace (extract wEnt 7 4 wEngine).2.2) ∧
    (ctrace (extract_direct wEnt 7 9 wEngine).2.2 =
      ctrace (extract wEnt 7 9 wEngine).2.2) :=
  counter_seq_split wEnt 7 wEngine 9 2 6 4 wEngine_ok


end Ottery
